import Mathlib

/-!
Verification development for `bigBedToBed.py`, a reader for the BigBed
binary genomic annotation format.  The Python source is shallowly embedded:
a file is a list of byte values (`List Nat`, each entry < 256), the shared
seekable handle is explicit state (`RState`), fallible operations return
`Except PErr`, and unbounded recursion over file offsets takes a fuel
argument (`PErr.fuelOut` models non-termination / stack overflow).
Python runtime exceptions are modelled by the other `PErr` constructors.
-/

/-- Errors a run of the Python program can raise, plus `fuelOut` for the
fuel-based embedding of recursion over file offsets. -/
inductive PErr where
  | typeError
  | structError
  | valueError
  | zlibError
  | exitFail
  | fuelOut
  deriving Repr, DecidableEq

/-- A byte string: Python `bytes` as a list of byte values. -/
abbrev ByteStr := List Nat

/-- Python `s[a:b]` for non-negative bounds (clamped at the ends). -/
def pySlice (s : ByteStr) (a b : Nat) : ByteStr := (s.take b).drop a

/-- Big-endian value of a byte string (what `struct.unpack` of `>H`, `>L`,
`>Q` computes once the length matches). -/
def beNat (bs : ByteStr) : Nat := bs.foldl (fun acc b => acc * 256 + b) 0

/-- `struct.unpack` of a fixed-width big-endian integer, after the
`data[::-1]` byte reversal the reader applies when `is_swapped`.
Raises `struct.error` unless exactly `w` bytes are supplied. -/
def unpackBE (w : Nat) (isSwapped : Bool) (bs : ByteStr) : Except PErr Nat :=
  if bs.length = w then .ok (beNat (if isSwapped then bs.reverse else bs))
  else .error .structError

/-- `struct.unpack(">L", bs[::toSwap])[0]` in `BigBed.query` (line 479):
reverse when swapped, then decode 4 big-endian bytes. -/
def unpackU32 (isSwapped : Bool) (bs : ByteStr) : Except PErr Nat :=
  unpackBE 4 isSwapped bs

/-- The seekable handle: the file contents plus the current position. -/
structure RState where
  file : ByteStr
  pos : Nat
  deriving Repr, DecidableEq

/-- `self._handle.read(n)`: returns up to `n` bytes from the current
position (short at end of file) and advances by the number returned. -/
def readBytesR (st : RState) (n : Nat) : ByteStr × RState :=
  let data := (st.file.drop st.pos).take n
  (data, ⟨st.file, st.pos + data.length⟩)

/-- `Handle.read_char` (source lines 72-76): read one byte and unpack with
`">c"`.  The result is itself a one-byte `bytes` object; `struct.error` is
raised when the read came back empty (end of file). -/
def readChar (st : RState) : Except PErr (ByteStr × RState) :=
  let (data, st') := readBytesR st 1
  if data.length = 1 then .ok (data, st') else .error .structError

/-- `Handle.read_short` (lines 82-86). -/
def readShortR (isSwapped : Bool) (st : RState) : Except PErr (Nat × RState) :=
  let (data, st') := readBytesR st 2
  match unpackBE 2 isSwapped data with
  | .error e => .error e
  | .ok n => .ok (n, st')

/-- `Handle.read_longlong` (lines 94-98). -/
def readLongLongR (isSwapped : Bool) (st : RState) : Except PErr (Nat × RState) :=
  let (data, st') := readBytesR st 8
  match unpackBE 8 isSwapped data with
  | .error e => .error e
  | .ok n => .ok (n, st')

/-- `strlen` inner loop (lines 36-39): `i` is the `enumerate` index of the
head element; on a zero byte the index is decremented before the break, and
when the loop ends without a break the last index is returned. -/
def strlenLoop : ByteStr → Nat → Int
  | [], _ => 0
  | c :: rest, i =>
    if c = 0 then (i : Int) - 1
    else match rest with
      | [] => (i : Int)
      | _ :: _ => strlenLoop rest (i + 1)

/-- `strlen` (lines 33-40): for an empty input the loop never runs and the
initial `index = 0` is returned. -/
def strlen (s : ByteStr) : Int :=
  match s with
  | [] => 0
  | _ :: _ => strlenLoop s 0

/-- `cmpTwo` (lines 42-53): compares `(aHi, aLo)` with `(bHi, bLo)` and
returns `+1` when `a < b` (reversed from convention), `-1` when `a > b`. -/
def cmpTwo (aHi aLo bHi bLo : Nat) : Int :=
  if aHi < bHi then 1
  else if aHi > bHi then -1
  else if aLo < bLo then 1
  else if aLo > bLo then -1
  else 0

/-- `cirTreeOverlaps` (lines 55-60). -/
def cirTreeOverlaps (qChrom qStart qEnd rStartChrom rStartBase rEndChrom rEndBase : Nat) : Bool :=
  cmpTwo qChrom qStart rEndChrom rEndBase > 0 && cmpTwo qChrom qEnd rStartChrom rStartBase < 0

/-- Strict lexicographic order on `(chrom, base)` pairs, as the spec words
the overlap predicate ("strictly precedes under lexicographic ordering"). -/
def pairLt (aHi aLo bHi bLo : Nat) : Prop := aHi < bHi ∨ (aHi = bHi ∧ aLo < bLo)

/-! ## B+ tree (`BPlusTree`) -/

/-- A `BPlusTree` object after `__init__` has parsed the header: the shared
file, the byte-swap flag, and the header fields the algorithms use. -/
structure Bpt where
  file : ByteStr
  isSwapped : Bool
  keySize : Nat
  valSize : Nat
  itemCount : Nat
  rootOffset : Nat
  deriving Repr, DecidableEq

/-- Python `bytes` comparison `key < other_key`: unsigned lexicographic. -/
def bytesLt : ByteStr → ByteStr → Bool
  | [], [] => false
  | [], _ :: _ => true
  | _ :: _, [] => false
  | x :: xs, y :: ys =>
    if x < y then true else if y < x then false else bytesLt xs ys

/-- Leaf scan of `_r_find` (lines 185-191): read `(key, val)` pairs,
returning the first value whose key equals the search key. -/
def rFindLeafLoop (keySize valSize : Nat) (key : ByteStr) : Nat → RState → Option ByteStr
  | 0, _ => none
  | n + 1, st =>
    let (other_key, st) := readBytesR st keySize
    let (val, st) := readBytesR st valSize
    if key = other_key then some val else rFindLeafLoop keySize valSize key n st

/-- Internal scan of `_r_find` (lines 200-204).  Note the source loops
`for _ in range(child_count)` — `child_count` iterations even though only
`child_count - 1` `(key, offset)` pairs belong to the node, so the last
iteration reads bytes past the node's children. -/
def rFindScan (keySize : Nat) (isSwapped : Bool) (key : ByteStr) : Nat → Nat → RState → Except PErr Nat
  | 0, fileOffset, _ => .ok fileOffset
  | n + 1, fileOffset, st =>
    let (other_key, st) := readBytesR st keySize
    if bytesLt key other_key then .ok fileOffset
    else
      match readLongLongR isSwapped st with
      | .error e => .error e
      | .ok (fileOffset', st') => rFindScan keySize isSwapped key n fileOffset' st'

/-- `BPlusTree._r_find` (lines 171-206).  `is_leaf` is the one-byte `bytes`
object produced by `read_char`; the source tests `if is_leaf:`, and any
non-empty `bytes` is truthy in Python — so `b"\x00"` (an internal node)
also takes the leaf branch, and the internal branch below is unreachable
whenever `read_char` succeeds. -/
def rFind (bpt : Bpt) (key : ByteStr) : Nat → Nat → Except PErr (Option ByteStr)
  | 0, _ => .error .fuelOut
  | fuel + 1, offset =>
    let st : RState := ⟨bpt.file, offset⟩
    match readChar st with
    | .error e => .error e
    | .ok (is_leaf, st) =>
      match readChar st with
      | .error e => .error e
      | .ok (_reserved, st) =>
        match readShortR bpt.isSwapped st with
        | .error e => .error e
        | .ok (child_count, st) =>
          if is_leaf ≠ [] then
            .ok (rFindLeafLoop bpt.keySize bpt.valSize key child_count st)
          else
            let (_first_key, st) := readBytesR st bpt.keySize
            match readLongLongR bpt.isSwapped st with
            | .error e => .error e
            | .ok (fileOffset, st) =>
              match rFindScan bpt.keySize bpt.isSwapped key child_count fileOffset st with
              | .error e => .error e
              | .ok fileOffset' => rFind bpt key fuel fileOffset'

/-- `BPlusTree._find_maybe_multi` with `multi = False`, composed with
`find` (lines 145-169): a key longer than `keySize` is logged and `None`
is returned; otherwise the key is right-padded with zero bytes to
`keySize` and `_r_find` starts at the root. -/
def bptFind (bpt : Bpt) (key : ByteStr) (fuel : Nat) : Except PErr (Option ByteStr) :=
  if key.length > bpt.keySize then .ok none
  else
    let key := if key.length ≠ bpt.keySize
      then key ++ List.replicate (bpt.keySize - key.length) 0 else key
    rFind bpt key fuel bpt.rootOffset

/-- Leaf loop of `_rTraverse` (lines 223-228): the callback receives each
`(key, val)` pair in order; we collect the invocations. -/
def rTravLeafLoop (keySize valSize : Nat) : Nat → RState → List (ByteStr × ByteStr)
  | 0, _ => []
  | n + 1, st =>
    let (key, st) := readBytesR st keySize
    let (val, st) := readBytesR st valSize
    (key, val) :: rTravLeafLoop keySize valSize n st

/-- Internal loop of `_rTraverse` (lines 231-233): reads `(key, offset)`
pairs.  The source decodes the offset with `struct.unpack(">Q", ...)` —
always big-endian, ignoring `is_swapped` — and appends the resulting
1-tuple itself, not its element. -/
def rTravOffsets (keySize : Nat) : Nat → RState → Except PErr (List Nat)
  | 0, _ => .ok []
  | n + 1, st =>
    let (_key, st) := readBytesR st keySize
    let (data, st') := readBytesR st 8
    if data.length = 8 then
      match rTravOffsets keySize n st' with
      | .error e => .error e
      | .ok rest => .ok (beNat data :: rest)
    else .error .structError

/-- `BPlusTree._rTraverse` (lines 211-239).  As in `_r_find`, `is_leaf` is
a non-empty `bytes` whenever `read_char` succeeds, so the leaf branch is
always taken.  In the (unreachable) internal branch, the recursion
`self._rTraverse(offset, callback)` passes the 1-tuple collected above to
`self._handle.seek`, which raises `TypeError` on the first iteration. -/
def rTraverse (bpt : Bpt) (offset : Nat) : Except PErr (List (ByteStr × ByteStr)) :=
  let st : RState := ⟨bpt.file, offset⟩
  match readChar st with
  | .error e => .error e
  | .ok (is_leaf, st) =>
    match readChar st with
    | .error e => .error e
    | .ok (_reserved, st) =>
      match readShortR bpt.isSwapped st with
      | .error e => .error e
      | .ok (child_count, st) =>
        if is_leaf ≠ [] then
          .ok (rTravLeafLoop bpt.keySize bpt.valSize child_count st)
        else
          match rTravOffsets bpt.keySize child_count st with
          | .error e => .error e
          | .ok fileOffsets =>
            match fileOffsets with
            | [] => .ok []
            | _ :: _ => .error .typeError

/-- `BPlusTree.traverse_tree` (lines 208-209): start at the root. -/
def bptTraverse (bpt : Bpt) : Except PErr (List (ByteStr × ByteStr)) :=
  rTraverse bpt bpt.rootOffset

/-! ## CIR tree (`CIRTree`) -/

/-- One `(startChromIx, startBase, endChromIx, endBase)` interval of a
CIR-tree child. -/
structure CirInterval where
  startChromIx : Nat
  startBase : Nat
  endChromIx : Nat
  endBase : Nat
  deriving Repr, DecidableEq

/-- `FileOffsetSize` (line 19). -/
structure FileOffsetSize where
  offset : Nat
  size : Nat
  deriving Repr, DecidableEq

/-- A parsed CIR-tree node.  `CIRTree._find` reads each node's children
sequentially from the file (interval, then `offset` and, for leaves,
`size`); the tree of well-formed nodes is represented structurally.
Unlike the B+ tree code, `_find` obtains `is_leaf` with `read_bool`
(line 280), which compares against `b"\x00"`, so the leaf test works. -/
inductive CirNode where
  | leaf (children : List (CirInterval × Nat × Nat))
  | node (children : List (CirInterval × CirNode))
  deriving Repr

mutual
/-- `CIRTree._find` (lines 275-318): descend, appending overlapping leaf
children to `results` and recursing into overlapping internal children. -/
def cirFind (t : CirNode) (chrom_id start end_ : Nat) (results : List FileOffsetSize) : List FileOffsetSize :=
  match t with
  | .leaf children => cirLeafLoop chrom_id start end_ children results
  | .node children => cirNodeLoop chrom_id start end_ children results

/-- Leaf loop of `_find` (lines 287-299): `if the block overlaps, add it
to the list of results`. -/
def cirLeafLoop (chrom_id start end_ : Nat) : List (CirInterval × Nat × Nat) → List FileOffsetSize → List FileOffsetSize
  | [], results => results
  | c :: rest, results =>
    if cirTreeOverlaps chrom_id start end_ c.1.startChromIx c.1.startBase c.1.endChromIx c.1.endBase
    then cirLeafLoop chrom_id start end_ rest (results ++ [⟨c.2.1, c.2.2⟩])
    else cirLeafLoop chrom_id start end_ rest results

/-- Internal loop of `_find` (lines 315-318): `if the tree overlaps,
recurse`. -/
def cirNodeLoop (chrom_id start end_ : Nat) : List (CirInterval × CirNode) → List FileOffsetSize → List FileOffsetSize
  | [], results => results
  | c :: rest, results =>
    if cirTreeOverlaps chrom_id start end_ c.1.startChromIx c.1.startBase c.1.endChromIx c.1.endBase
    then cirNodeLoop chrom_id start end_ rest (cirFind c.2 chrom_id start end_ results)
    else cirNodeLoop chrom_id start end_ rest results
end

/-- `CIRTree.find_blocks` (lines 269-273): `results = []` then `_find`
from the root. -/
def cirFindBlocks (root : CirNode) (chrom_id start end_ : Nat) : List FileOffsetSize :=
  cirFind root chrom_id start end_ []

/-! ## Block pipeline (`BigBed.query`, lines 447-516) -/

/-- `BedLine` (line 21): field order `start, end, rest, chrom_id`. -/
structure BedLine where
  start : Nat
  end_ : Nat
  rest : Option ByteStr
  chrom_id : Nat
  deriving Repr, DecidableEq

/-- `fileOffsetSizeFindGap` loop (lines 325-331); `i` is the `enumerate`
index of the head.  The function is only called on a non-empty list (the
`while blocks:` guard); on an empty list Python would raise `NameError`. -/
def findGapAux : List FileOffsetSize → Nat → Nat × Nat
  | [], i => (i, i)
  | [_b], i => (i, i + 1)
  | b :: b' :: rest, i =>
    if b'.offset ≠ b.offset + b.size then (i, i + 1)
    else findGapAux (b' :: rest) (i + 1)

/-- `fileOffsetSizeFindGap` (lines 321-331). -/
def fileOffsetSizeFindGap (blocks : List FileOffsetSize) : Nat × Nat :=
  findGapAux blocks 0

/-- The record filter of `query` (line 490): `chr == chrom_id and
((s < end and e > start) or (s == e and (s == end or end == start)))`. -/
def bedFilterPred (chrom_id qstart qend chr s e : Nat) : Bool :=
  chr == chrom_id && ((s < qend && e > qstart) || (s == e && (s == qend || qend == qstart)))

/-- `bedFilterPred` applied to a decoded `(chr, s, e)` triple. -/
def recMatches (chrom_id qstart qend : Nat) (r : Nat × Nat × Nat) : Bool :=
  bedFilterPred chrom_id qstart qend r.1 r.2.1 r.2.2

/-- A decoded `(chr, s, e)` triple as the `BedLine` line 500 constructs:
the computed `rest` is discarded and `rest = None` is passed. -/
def mkBedLine (r : Nat × Nat × Nat) : BedLine := ⟨r.2.1, r.2.2, none, r.1⟩

/-- The three fixed-field reads of a record (lines 479-484): `chr`, `s`,
`e` as u32 from `buff` at `blockPt`, `blockPt+4`, `blockPt+8`, each
byte-reversed when swapped. -/
def readRecHead (isSwapped : Bool) (buff : ByteStr) (blockPt : Nat) : Except PErr (Nat × Nat × Nat) :=
  match unpackU32 isSwapped (pySlice buff blockPt (blockPt + 4)) with
  | .error e => .error e
  | .ok chr =>
    match unpackU32 isSwapped (pySlice buff (blockPt + 4) (blockPt + 8)) with
    | .error e => .error e
    | .ok s =>
      match unpackU32 isSwapped (pySlice buff (blockPt + 8) (blockPt + 12)) with
      | .error e => .error e
      | .ok e_ => .ok (chr, s, e_)

/-- The record loop of `query` (lines 476-506), threading
`(blockPt, itemCount, intervals)`.  After the three u32 reads `blockPt`
has advanced by 12; `restLen = strlen(buff[blockPt:])`; on a match
`itemCount` is incremented and, unless the `max_items` cap is exceeded
(in which case the loop breaks with nothing appended), a `BedLine` with
`rest = None` (line 500) is appended.  Finally `blockPt += restLen + 2`;
since `strlen` never returns less than `-1` the `Int.toNat` below is
exact. -/
def decodeLoop (isSwapped : Bool) (chrom_id qstart qend max_items : Nat) (buff : ByteStr) (blockEnd : Nat) : Nat → Nat → Nat → List BedLine → Except PErr (Nat × Nat × List BedLine)
  | 0, _, _, _ => .error .fuelOut
  | fuel + 1, blockPt, itemCount, intervals =>
    if blockPt < blockEnd then
      match readRecHead isSwapped buff blockPt with
      | .error e => .error e
      | .ok (chr, s, e_) =>
        let restLen := strlen (buff.drop (blockPt + 12))
        if bedFilterPred chrom_id qstart qend chr s e_ then
          let itemCount := itemCount + 1
          if max_items > 0 ∧ itemCount > max_items then
            .ok (blockPt + 12, itemCount, intervals)
          else
            decodeLoop isSwapped chrom_id qstart qend max_items buff blockEnd fuel
              (blockPt + 12 + (restLen + 2).toNat) itemCount (intervals ++ [⟨s, e_, none, chr⟩])
        else
          decodeLoop isSwapped chrom_id qstart qend max_items buff blockEnd fuel
            (blockPt + 12 + (restLen + 2).toNat) itemCount intervals
    else .ok (blockPt, itemCount, intervals)

/-- The record stream of a block decoded on its own: the same cursor
walk as `decodeLoop` but collecting every `(chr, s, e)` triple, with no
filtering, cap, or accumulators.  Also returns the final cursor.  Used to
state what "every decoded record" means. -/
def decodeRecords (isSwapped : Bool) (buff : ByteStr) (blockEnd : Nat) : Nat → Nat → Except PErr (List (Nat × Nat × Nat) × Nat)
  | 0, _ => .error .fuelOut
  | fuel + 1, blockPt =>
    if blockPt < blockEnd then
      match readRecHead isSwapped buff blockPt with
      | .error e => .error e
      | .ok (chr, s, e_) =>
        let restLen := strlen (buff.drop (blockPt + 12))
        match decodeRecords isSwapped buff blockEnd fuel (blockPt + 12 + (restLen + 2).toNat) with
        | .error e => .error e
        | .ok (recs, pt') => .ok ((chr, s, e_) :: recs, pt')
    else .ok ([], blockPt)

/-- Per-block buffer preparation (lines 467-475).  When compression is
enabled (`uncompressBuf` is a non-empty `bytes`, i.e. `uncompressBufSize
> 0`) the source slices `mergedBuf[blockPt:blocks[index].size]` — the end
index is the absolute `blocks[index].size`, not `blockPt +
blocks[index].size` — and hands it to `zlib.decompress` (modelled by the
`zdec` oracle; `none` is a zlib failure); `blockEnd = blockPt +
len(buff)`.  Otherwise `buff` is the whole `mergedBuf` and `blockEnd =
blockPt + blocks[index].size`. -/
def blockBuffer (ucbs : Nat) (zdec : ByteStr → Option ByteStr) (mergedBuf : ByteStr) (blockPt : Nat) (b : FileOffsetSize) : Except PErr (ByteStr × Nat) :=
  if ucbs > 0 then
    match zdec (pySlice mergedBuf blockPt b.size) with
    | none => .error .zlibError
    | some buff => .ok (buff, blockPt + buff.length)
  else .ok (mergedBuf, blockPt + b.size)

/-- The `for index in range(afterGap)` loop (lines 465-509) over the
blocks of one coalesced run, threading `(blockPt, itemCount, intervals)`;
after each block the cap is re-checked (line 508). -/
def runLoop (isSwapped : Bool) (ucbs : Nat) (zdec : ByteStr → Option ByteStr) (chrom_id qstart qend max_items : Nat) (mergedBuf : ByteStr) (fuel : Nat) : List FileOffsetSize → Nat → Nat → List BedLine → Except PErr (Nat × Nat × List BedLine)
  | [], blockPt, itemCount, intervals => .ok (blockPt, itemCount, intervals)
  | b :: rest, blockPt, itemCount, intervals =>
    match blockBuffer ucbs zdec mergedBuf blockPt b with
    | .error e => .error e
    | .ok (buff, blockEnd) =>
      match decodeLoop isSwapped chrom_id qstart qend max_items buff blockEnd fuel blockPt itemCount intervals with
      | .error e => .error e
      | .ok (blockPt', itemCount', intervals') =>
        if max_items > 0 ∧ itemCount' > max_items then .ok (blockPt', itemCount', intervals')
        else runLoop isSwapped ucbs zdec chrom_id qstart qend max_items mergedBuf fuel rest blockPt' itemCount' intervals'

/-- Run setup of the `while blocks:` loop (lines 452-458): find the
coalesced run (`beforeGap`, `afterGap`), compute `mergedOffset` and
`mergedSize` (a negative length would make `file.read` raise
`ValueError`), and read `mergedBuf` in one I/O.  Returns the merged
buffer and `afterGap`. -/
def runSetup (file : ByteStr) (b : FileOffsetSize) (bs : List FileOffsetSize) : Except PErr (ByteStr × Nat) :=
  let gap := fileOffsetSizeFindGap (b :: bs)
  let mergedOffset := b.offset
  let lastRun := (b :: bs).getD gap.1 ⟨0, 0⟩
  let mergedSize : Int := (lastRun.offset : Int) + lastRun.size - mergedOffset
  if mergedSize < 0 then .error .valueError
  else .ok ((file.drop mergedOffset).take mergedSize.toNat, gap.2)

/-- The `while blocks:` loop (lines 449-514): set up the coalesced run,
run the per-block loop with `blockPt = 0`, re-check the cap (line 511),
and continue with `blocks[afterGap:]`.  The outer fuel only bounds the
number of runs. -/
def queryBlocksLoop (file : ByteStr) (isSwapped : Bool) (ucbs : Nat) (zdec : ByteStr → Option ByteStr) (chrom_id qstart qend max_items fuel : Nat) : Nat → List FileOffsetSize → Nat → List BedLine → Except PErr (List BedLine)
  | 0, _, _, _ => .error .fuelOut
  | _ + 1, [], _, intervals => .ok intervals
  | ofuel + 1, b :: bs, itemCount, intervals =>
    match runSetup file b bs with
    | .error e => .error e
    | .ok (mergedBuf, afterGap) =>
      match runLoop isSwapped ucbs zdec chrom_id qstart qend max_items mergedBuf fuel ((b :: bs).take afterGap) 0 itemCount intervals with
      | .error e => .error e
      | .ok (_blockPt, itemCount', intervals') =>
        if max_items > 0 ∧ itemCount' > max_items then .ok intervals'
        else queryBlocksLoop file isSwapped ucbs zdec chrom_id qstart qend max_items fuel ofuel ((b :: bs).drop afterGap) itemCount' intervals'

/-- The decode-then-filter rendering of one run: each block's record
stream is decoded whole (`decodeRecords`), filtered by the record filter,
and the survivors are concatenated in order. -/
def runMatching (isSwapped : Bool) (ucbs : Nat) (zdec : ByteStr → Option ByteStr) (chrom_id qstart qend : Nat) (mergedBuf : ByteStr) (fuel : Nat) : List FileOffsetSize → Nat → Except PErr (List BedLine × Nat)
  | [], blockPt => .ok ([], blockPt)
  | b :: rest, blockPt =>
    match blockBuffer ucbs zdec mergedBuf blockPt b with
    | .error e => .error e
    | .ok (buff, blockEnd) =>
      match decodeRecords isSwapped buff blockEnd fuel blockPt with
      | .error e => .error e
      | .ok (recs, pt') =>
        match runMatching isSwapped ucbs zdec chrom_id qstart qend mergedBuf fuel rest pt' with
        | .error e => .error e
        | .ok (lines, ptF) =>
          .ok ((recs.filter (recMatches chrom_id qstart qend)).map mkBedLine ++ lines, ptF)

/-- The decode-then-filter rendering of the whole pipeline: every decoded
record of every block of every coalesced run that passes the record
filter, in order. -/
def queryMatching (file : ByteStr) (isSwapped : Bool) (ucbs : Nat) (zdec : ByteStr → Option ByteStr) (chrom_id qstart qend fuel : Nat) : Nat → List FileOffsetSize → Except PErr (List BedLine)
  | 0, _ => .error .fuelOut
  | _ + 1, [] => .ok []
  | ofuel + 1, b :: bs =>
    match runSetup file b bs with
    | .error e => .error e
    | .ok (mergedBuf, afterGap) =>
      match runMatching isSwapped ucbs zdec chrom_id qstart qend mergedBuf fuel ((b :: bs).take afterGap) 0 with
      | .error e => .error e
      | .ok (lines, _pt) =>
        match queryMatching file isSwapped ucbs zdec chrom_id qstart qend fuel ofuel ((b :: bs).drop afterGap) with
        | .error e => .error e
        | .ok more => .ok (lines ++ more)

/-! ## `BigBed.overlapping_blocks` and `BigBed.query` -/

/-- `BigBed.overlapping_blocks` (lines 392-417).  The chromosome is looked
up in the B+ tree; on `None` the source evaluates
`chrom.startswith("chr")` — but `chrom` is a `bytes` object (that is the
only type `find` can ever match against the tree's byte keys) and `"chr"`
is a `str`, so `bytes.startswith` raises `TypeError`; the prefix-stripped
retry and both `return None` paths after it are unreachable.  On success
the 8-byte value is unpacked as `(chrom_id, chrom_size)` with `"<LL"` or
`">LL"` according to the swap flag, and the CIR tree is searched.  The
parsed CIR root stands for the `ctf` argument. -/
def overlappingBlocks (bpt : Bpt) (cir : CirNode) (fuel : Nat) (chrom : ByteStr) (start end_ : Nat) : Except PErr (Option (List FileOffsetSize × Nat)) :=
  match bptFind bpt chrom fuel with
  | .error e => .error e
  | .ok none => .error .typeError
  | .ok (some idSize) =>
    if idSize.length = 8 then
      let b1 := pySlice idSize 0 4
      let b2 := pySlice idSize 4 8
      let chrom_id := beNat (if bpt.isSwapped then b1.reverse else b1)
      let _chrom_size := beNat (if bpt.isSwapped then b2.reverse else b2)
      .ok (some (cirFindBlocks cir chrom_id start end_, chrom_id))
    else .error .structError

/-- `BigBed.query` (lines 419-516).  The lazily attached unzoomed CIR
tree is passed in parsed form; `start` is padded down by one when
positive and `end` up by one; when `overlapping_blocks` returns `None`
the source calls `exit(-1)`, killing the process (`PErr.exitFail`);
otherwise the block pipeline runs with `itemCount = 0`, `intervals = []`. -/
def bigBedQuery (bpt : Bpt) (cir : CirNode) (file : ByteStr) (isSwapped : Bool) (ucbs : Nat) (zdec : ByteStr → Option ByteStr) (chrom : ByteStr) (start end_ max_items fuel ofuel : Nat) : Except PErr (List BedLine) :=
  match overlappingBlocks bpt cir fuel chrom
      (if start > 0 then start - 1 else start) (end_ + 1) with
  | .error e => .error e
  | .ok none => .error .exitFail
  | .ok (some (blocks, chrom_id)) =>
    queryBlocksLoop file isSwapped ucbs zdec chrom_id start end_ max_items fuel ofuel blocks 0 []

/-! ## `BigBed.to_bed` -/

/-- `ChromInfo` (line 16): field order `name, id, size`. -/
structure ChromInfo where
  name : ByteStr
  id : Nat
  size : Nat
  deriving Repr, DecidableEq

/-- One line printed by `to_bed` (lines 538-542): the stripped chromosome
name and the interval's `start`, `end` and optional `rest`. -/
structure OutLine where
  chromName : ByteStr
  start : Nat
  end_ : Nat
  rest : Option ByteStr
  deriving Repr, DecidableEq

/-- `chrom_name.strip(b'\x00')` (line 536): remove zero bytes from both
ends.  (The subsequent ascii decode is kept as bytes.) -/
def stripNulls (s : ByteStr) : ByteStr :=
  ((s.dropWhile (fun b => b == 0)).reverse.dropWhile (fun b => b == 0)).reverse

/-- `BigBed.to_bed` (lines 518-542), with the container's `query` method
abstracted as a function argument.  The `for chrom_name, chrom_start,
chrom_size in chroms` unpacking binds the `ChromInfo` fields positionally,
so `chrom_start` is the chromosome **id** (the tuple is `(name, id,
size)`), and that id is passed to `query` as the start coordinate.
`itemCount` is initialised to 0 and never updated, so when `maxItems ≠ 0`
every call receives `itemsLeft = maxItems - 0`, and the `itemsLeft < 0`
break never fires for a non-negative cap. -/
def toBedLoop (query : ByteStr → Nat → Nat → Nat → List BedLine) (maxItems : Nat) : List ChromInfo → Nat → List OutLine
  | [], _itemCount => []
  | c :: rest, itemCount =>
    let name := c.name
    let start := c.id
    let end_ := c.size
    let itemsLeft : Int := if maxItems ≠ 0 then (maxItems : Int) - itemCount else 0
    if itemsLeft < 0 then []
    else
      let stripped := stripNulls c.name
      let intervals := query name start end_ itemsLeft.toNat
      intervals.map (fun bl => OutLine.mk stripped bl.start bl.end_ bl.rest)
        ++ toBedLoop query maxItems rest itemCount

/-- `to_bed` entry: `itemCount = 0` (line 521). -/
def toBed (chroms : List ChromInfo) (query : ByteStr → Nat → Nat → Nat → List BedLine) (maxItems : Nat) : List OutLine :=
  toBedLoop query maxItems chroms 0

/-! ## The descent the spec describes (for comparison with `_r_find`) -/

/-- Modelled from the spec: the scan of an internal node's remaining
`childCount − 1` `(key, offset)` pairs — stop at the first key strictly
greater than the search key, keep the last offset read (§4.2). -/
def rFindRefScan (keySize : Nat) (isSwapped : Bool) (key : ByteStr) : Nat → Nat → RState → Except PErr Nat
  | 0, fileOffset, _ => .ok fileOffset
  | n + 1, fileOffset, st =>
    let (other_key, st) := readBytesR st keySize
    if bytesLt key other_key then .ok fileOffset
    else
      match readLongLongR isSwapped st with
      | .error e => .error e
      | .ok (fileOffset', st') => rFindRefScan keySize isSwapped key n fileOffset' st'

/-- Modelled from the spec (§4.2 `find`): identical node layout and reads
as `rFind`, but the `isLeaf` byte is tested as an integer (zero means
internal), and an internal node scans exactly `childCount − 1` pairs and
then recurses into the chosen child offset. -/
def rFindRef (bpt : Bpt) (key : ByteStr) : Nat → Nat → Except PErr (Option ByteStr)
  | 0, _ => .error .fuelOut
  | fuel + 1, offset =>
    let st : RState := ⟨bpt.file, offset⟩
    match readChar st with
    | .error e => .error e
    | .ok (is_leaf, st) =>
      match readChar st with
      | .error e => .error e
      | .ok (_reserved, st) =>
        match readShortR bpt.isSwapped st with
        | .error e => .error e
        | .ok (child_count, st) =>
          if is_leaf ≠ [0] then
            .ok (rFindLeafLoop bpt.keySize bpt.valSize key child_count st)
          else
            let (_first_key, st) := readBytesR st bpt.keySize
            match readLongLongR bpt.isSwapped st with
            | .error e => .error e
            | .ok (fileOffset, st) =>
              match rFindRefScan bpt.keySize bpt.isSwapped key (child_count - 1) fileOffset st with
              | .error e => .error e
              | .ok fileOffset' => rFindRef bpt key fuel fileOffset'

/-- Modelled from the spec: `find` with the padding rule of §4.2 on top of
the intended descent `rFindRef`. -/
def bptFindRef (bpt : Bpt) (key : ByteStr) (fuel : Nat) : Except PErr (Option ByteStr) :=
  if key.length > bpt.keySize then .ok none
  else
    let key := if key.length ≠ bpt.keySize
      then key ++ List.replicate (bpt.keySize - key.length) 0 else key
    rFindRef bpt key fuel bpt.rootOffset

/-! ## Concrete fixtures -/

/-- A single-level chromosome B+ tree: the root is a leaf holding one
entry, key `[65, 66]` ("AB") with value `(chromId, chromSize) = (1, 50)`.
File bytes: `isLeaf = 1`, `reserved = 0`, `childCount = 1`, then the
2-byte key and the 8-byte value. -/
def bptC1 : Bpt :=
  ⟨[1, 0, 0, 1, 65, 66, 0, 0, 0, 1, 0, 0, 0, 50], false, 2, 8, 1, 0⟩

/-- A two-level chromosome B+ tree with `itemCount = 2`: the root at
offset 0 is internal (`isLeaf = 0`) with one child at offset 18; the
leaf at 18 holds the two entries `([65,65], …1)` and `([66,66], …2)`.
Bytes 14-17 are padding between the nodes. -/
def bptTwoLevel : Bpt :=
  ⟨[0, 0, 0, 1, 65, 65, 0, 0, 0, 0, 0, 0, 0, 18,
    0, 0, 0, 0,
    1, 0, 0, 2, 65, 65, 0, 0, 0, 0, 0, 0, 0, 1,
    66, 66, 0, 0, 0, 0, 0, 0, 0, 2],
   false, 2, 8, 2, 0⟩

/-- A one-block data file: a single record `chr = 1, s = 5, e = 9` with a
two-byte tail `[97, 98]` ("ab") before the null terminator. -/
def c4file : ByteStr := [0, 0, 0, 1, 0, 0, 0, 5, 0, 0, 0, 9, 97, 98, 0]

/-- First compressed block of the C6 fixture: one record for chromosome 9
(13 bytes, empty tail). -/
def c6block0 : ByteStr := [0, 0, 0, 9, 0, 0, 0, 1, 0, 0, 0, 2, 0]

/-- Second compressed block of the C6 fixture: one record for chromosome
1 at `[1, 2)` (13 bytes, empty tail). -/
def c6block1 : ByteStr := [0, 0, 0, 1, 0, 0, 0, 1, 0, 0, 0, 2, 0]

/-- The C6 file: the two blocks adjacent on disk. -/
def c6file : ByteStr := c6block0 ++ c6block1

/-- The C6 block list: two adjacent blocks, so they coalesce into one
run of size 26. -/
def c6blocks : List FileOffsetSize := [⟨0, 13⟩, ⟨13, 13⟩]

/-- Two chromosomes for the `to_bed` fixture: names `"A\0"` and `"B\0"`,
ids 0 and 1, sizes 10 and 20. -/
def c7chroms : List ChromInfo := [⟨[65, 0], 0, 10⟩, ⟨[66, 0], 1, 20⟩]

/-- A query oracle for the `to_bed` fixture that echoes its arguments:
it returns one record whose `start` is the start coordinate it was called
with and whose `end` is the `max_items` cap it was called with (and it
respects the cap: one record when the cap is 1 or unlimited). -/
def c7query (_name : ByteStr) (qstart _qend max_items : Nat) : List BedLine :=
  [⟨qstart, max_items, none, 0⟩]

/-! ## Claim theorems: C1-C8 -/

/-- C1.  The claim says a chromosome name absent from the B+ tree makes
`query` return an empty list without raising an error or terminating the
process.  On the code this is false: with the absent (byte-string)
chromosome `[88, 88]` the `None` from `find` reaches
`chrom.startswith("chr")`, which raises `TypeError` (`bytes.startswith`
given a `str`); and had the fallback typechecked, a still-absent name
reaches `exit(-1)` (line 434), terminating the process.  `query` never
returns an empty list for an absent chromosome. -/
theorem c1_absent_chrom_raises :
    bigBedQuery bptC1 (CirNode.leaf []) bptC1.file false 0 (fun _ => none) [88, 88] 0 10 0 9 9
      = .error .typeError := by
  rfl

/-- C2.  The claim says `traverse` visits exactly `itemCount` leaf
entries and each visited key is findable.  On the two-level tree
`bptTwoLevel` (a valid B+ tree with `itemCount = 2`), `traverse` visits
exactly one entry — the root's internal `(key, childOffset)` pair,
because the truthy one-byte `is_leaf` makes every node take the leaf
branch — and the value it reports is the raw child-offset bytes, not a
leaf value.  The visitor therefore runs once, not `itemCount = 2`
times. -/
theorem c2_traverse_miscounts :
    bptTraverse bptTwoLevel = .ok [([65, 65], [0, 0, 0, 0, 0, 0, 0, 18])]
      ∧ bptTwoLevel.itemCount = 2 := by
  exact ⟨rfl, rfl⟩

/-- C3.  The claim describes the internal-node descent of `find`.  On the
code that descent never happens: searching `bptTwoLevel` for the key
`[66, 66]` — which the leaf at offset 18 holds with value `…2` — returns
`None`, because the internal root is scanned as a leaf (truthy `is_leaf`)
and no recursion occurs.  The spec-modelled descent `bptFindRef` (integer
`isLeaf` test, `childCount − 1` scanned pairs, recursion) finds it. -/
theorem c3_find_never_descends :
    bptFind bptTwoLevel [66, 66] 9 = .ok none
      ∧ bptFindRef bptTwoLevel [66, 66] 9 = .ok (some [0, 0, 0, 0, 0, 0, 0, 2]) := by
  exact ⟨rfl, rfl⟩

/-- C4.  The claim says a record whose on-disk tail before the null is
non-empty yields a `BedLine` with `rest` present and equal to that tail.
On the code `rest` is always absent: line 500 constructs
`BedLine(..., rest=None)`, discarding the value computed at lines
496-498.  The record in `c4file` has tail `[97, 98]`, yet the emitted
`BedLine` carries `rest = none`. -/
theorem c4_rest_always_none :
    queryBlocksLoop c4file false 0 (fun _ => none) 1 0 10 0 20 20 [⟨0, 15⟩] 0 []
      = .ok [⟨5, 9, none, 1⟩] := by
  rfl

/-- C5 counterexample.  The claim says the terminator scan returns the
count of bytes strictly before the first null — in particular 0 when the
null is at offset 0.  On the input `[0]` the code returns `-1`, not 0
(the `enumerate` index is decremented before the break). -/
theorem c5_strlen_counterexample : strlen [0] = -1 ∧ strlen [0] ≠ 0 := by
  exact ⟨rfl, by decide⟩

/-- C6.  The claim says the byte string handed to the decompressor for
block `i` is the `blocks[i].size` bytes of `mergedBuf` at the current
cursor.  The code slices `mergedBuf[blockPt:blocks[index].size]` — an
absolute end index.  On the two adjacent compressed blocks of `c6file`
(identity decompressor), the second block's slice is
`mergedBuf[13:13] = []` instead of its 13 bytes, so its record — which
passes the filter for chromosome 1 — is silently lost and the query
returns no records at all. -/
theorem c6_compressed_slice_wrong :
    queryBlocksLoop c6file false 100 (fun bs => some bs) 1 0 10 0 20 20 c6blocks 0 [] = .ok []
      ∧ pySlice c6file 13 13 = []
      ∧ pySlice c6file 13 (13 + 13) = c6block1
      ∧ decodeRecords false c6block1 13 20 0 = .ok ([(1, 1, 2)], 13)
      ∧ recMatches 1 0 10 (1, 1, 2) = true := by
  exact ⟨rfl, rfl, rfl, rfl, rfl⟩

/-- C7.  The claim says `to_bed` calls `query(name, 0, chromSize,
remaining)` with `remaining = max(0, maxItems − emittedSoFar)` and stops
when it reaches zero, so at most `maxItems` records are emitted.  On the
code, `itemCount` is never updated and the `ChromInfo` tuple is unpacked
as `(chrom_name, chrom_start, chrom_size)`, so the chromosome **id** is
passed as the query start.  With `maxItems = 1` and the argument-echoing
oracle `c7query`, `to_bed` emits two records (one per chromosome): each
output's `end` field shows the cap passed was still 1 on the second call,
and the second output's `start` field shows the start passed was the
chromosome id 1, not 0. -/
theorem c7_tobed_cap_not_enforced :
    toBed c7chroms c7query 1
      = [⟨[65], 0, 1, none⟩, ⟨[66], 1, 1, none⟩]
      ∧ (toBed c7chroms c7query 1).length = 2 := by
  exact ⟨rfl, rfl⟩

/-- C8 counterexample.  The claim says a lookup key longer than `keySize`
fails with the `KeyTooLong` error, as opposed to the ordinary absent-key
result.  On the code (lines 152-154) the over-long key `[1, 2, 3]`
(keySize 2) produces `None` — exactly the same result as the absent
well-sized key `[77, 77]` — with no error raised. -/
theorem c8_keytoolong_counterexample :
    bptFind bptC1 [1, 2, 3] 5 = .ok none ∧ bptFind bptC1 [77, 77] 5 = .ok none := by
  exact ⟨rfl, rfl⟩

/-- C8 amended: a lookup key longer than the tree's `keySize` makes
`find` log and return `None` — indistinguishable from an absent key; no
distinguished `KeyTooLong` error exists.  This holds for every tree,
key and fuel, before any file access. -/
theorem c8_keytoolong_amended (bpt : Bpt) (key : ByteStr) (fuel : Nat)
    (h : bpt.keySize < key.length) : bptFind bpt key fuel = .ok none := by
  unfold bptFind
  exact if_pos h

/-- Witness for `c8_keytoolong_amended` at the concrete tree `bptC1` and
key `[1, 2, 3]`. -/
theorem c8_keytoolong_amended_witness :
    bptC1.keySize < 3 ∧ bptFind bptC1 [1, 2, 3] 5 = .ok none :=
  ⟨by decide, c8_keytoolong_amended bptC1 [1, 2, 3] 5 (by decide)⟩

/-! ## C5: strlen characterisation -/

/-- Unfolding equation of `strlenLoop` on a single-element list. -/
theorem strlenLoop_single (c : Nat) (i : Nat) :
    strlenLoop [c] i = if c = 0 then (i : Int) - 1 else (i : Int) := rfl

/-- Unfolding equation of `strlenLoop` on a list of two or more. -/
theorem strlenLoop_cons_cons (c d : Nat) (ds : ByteStr) (i : Nat) :
    strlenLoop (c :: d :: ds) i
      = if c = 0 then (i : Int) - 1 else strlenLoop (d :: ds) (i + 1) := rfl

/-- Shifting the `enumerate` start of the `strlen` loop by one shifts the
result by one (for a non-empty input). -/
theorem strlenLoop_succ (s : ByteStr) (hs : s ≠ []) :
    ∀ i : Nat, strlenLoop s (i + 1) = strlenLoop s i + 1 := by
  induction s with
  | nil => exact absurd rfl hs
  | cons c rest ih =>
    intro i
    cases rest with
    | nil =>
      rw [strlenLoop_single, strlenLoop_single]
      split_ifs <;> push_cast <;> ring
    | cons d ds =>
      rw [strlenLoop_cons_cons, strlenLoop_cons_cons]
      split_ifs with hc
      · push_cast; ring
      · exact ih (by simp) (i + 1)

/-- `strlen` never returns less than `-1`, so the cursor advance
`blockPt += restLen + 2` always moves forward. -/
theorem strlen_ge_neg_one (s : ByteStr) : -1 ≤ strlen s := by
  unfold strlen
  cases s with
  | nil => norm_num
  | cons c rest =>
    suffices h : ∀ (t : ByteStr) (i : Nat), t ≠ [] → -1 + (i : Int) ≤ strlenLoop t i by
      have := h (c :: rest) 0 (by simp)
      simpa using this
    intro t
    induction t with
    | nil => intro i hi; exact absurd rfl hi
    | cons d ds ih =>
      intro i _
      cases ds with
      | nil =>
        rw [strlenLoop_single]
        split_ifs <;> omega
      | cons e es =>
        rw [strlenLoop_cons_cons]
        split_ifs with hd
        · omega
        · have := ih (i + 1) (by simp)
          push_cast at this ⊢
          omega

/-- C5 amended: the terminator scan returns **one less** than the count
of bytes strictly before the first null (`-1` when the null is at offset
0); since the record loop then advances the cursor by `restLen + 2`
beyond the 12 fixed bytes, the cursor still lands exactly one byte past
the null (`(strlen s + 2).toNat = p + 1` where `p` is the null's
offset). -/
theorem c5_strlen_amended (s : ByteStr) (p : Nat) (hp : s.get? p = some 0)
    (hfirst : ∀ i, i < p → s.get? i ≠ some 0) :
    strlen s = (p : Int) - 1 ∧ (strlen s + 2).toNat = p + 1 := by
  suffices h : strlen s = (p : Int) - 1 by
    refine ⟨h, ?_⟩
    rw [h]
    omega
  induction s generalizing p with
  | nil => simp at hp
  | cons c rest ih =>
    cases p with
    | zero =>
      simp only [List.get?] at hp
      have hc : c = 0 := by injection hp
      simp [strlen, strlenLoop, hc]
    | succ q =>
      have hc : c ≠ 0 := by
        have h0 := hfirst 0 (Nat.succ_pos q)
        simp only [List.get?] at h0
        intro hc0
        exact h0 (by rw [hc0])
      have hrest : rest ≠ [] := by
        intro hr
        rw [hr] at hp
        simp at hp
      have hstep : strlen (c :: rest) = strlen rest + 1 := by
        unfold strlen
        cases rest with
        | nil => exact absurd rfl hrest
        | cons d ds =>
          rw [strlenLoop_cons_cons, if_neg hc]
          exact strlenLoop_succ (d :: ds) (by simp) 0
      have hp' : rest.get? q = some 0 := by simpa using hp
      have hfirst' : ∀ i, i < q → rest.get? i ≠ some 0 := by
        intro i hi
        have := hfirst (i + 1) (by omega)
        simpa using this
      have := ih q hp' hfirst'
      rw [hstep, this]
      push_cast
      ring

/-- Witness for `c5_strlen_amended` on `[97, 0]`: the null is at offset
1, `strlen` returns 0, and the advance lands at offset 2. -/
theorem c5_strlen_amended_witness :
    strlen [97, 0] = (1 : Int) - 1 ∧ (strlen [97, 0] + 2).toNat = 1 + 1 :=
  c5_strlen_amended [97, 0] 1 rfl (by decide)

/-! ## C9: overlap predicate and CIR-tree search characterisation -/

/-- The leaf loop of `CIRTree._find` appends exactly the overlapping
children's `(offset, size)` pairs, in order. -/
theorem cirLeafLoop_eq (qc qs qe : Nat) :
    ∀ (cs : List (CirInterval × Nat × Nat)) (res : List FileOffsetSize),
    cirLeafLoop qc qs qe cs res
      = res ++ (cs.filter (fun c =>
          cirTreeOverlaps qc qs qe c.1.startChromIx c.1.startBase c.1.endChromIx c.1.endBase)).map
          (fun c => ⟨c.2.1, c.2.2⟩) := by
  intro cs
  induction cs with
  | nil => intro res; simp [cirLeafLoop]
  | cons c rest ih =>
    intro res
    rw [cirLeafLoop, List.filter_cons]
    by_cases hov : cirTreeOverlaps qc qs qe c.1.startChromIx c.1.startBase c.1.endChromIx c.1.endBase
    · rw [if_pos hov, ih, if_pos hov]
      simp [List.append_assoc]
    · rw [if_neg hov, ih, if_neg hov]

/-- The internal loop of `CIRTree._find` recurses exactly into the
overlapping children, in order. -/
theorem cirNodeLoop_eq (qc qs qe : Nat) :
    ∀ (cs : List (CirInterval × CirNode)) (res : List FileOffsetSize),
    cirNodeLoop qc qs qe cs res
      = (cs.filter (fun c =>
          cirTreeOverlaps qc qs qe c.1.startChromIx c.1.startBase c.1.endChromIx c.1.endBase)).foldl
          (fun r c => cirFind c.2 qc qs qe r) res := by
  intro cs
  induction cs with
  | nil => intro res; simp [cirNodeLoop]
  | cons c rest ih =>
    intro res
    rw [cirNodeLoop, List.filter_cons]
    by_cases hov : cirTreeOverlaps qc qs qe c.1.startChromIx c.1.startBase c.1.endChromIx c.1.endBase
    · rw [if_pos hov, ih, if_pos hov, List.foldl_cons]
    · rw [if_neg hov, ih, if_neg hov]

/-- C9.  (1) The overlap test of `cirTreeOverlaps` holds iff the query
start strictly precedes the child interval's end and the child interval's
start strictly precedes the query end, under lexicographic `(chrom,
base)` ordering — `cmpTwo` returning `+1` for `a < b`.  (2) A leaf
child's `(offset, size)` is appended exactly when the test holds.  (3) An
internal child is recursed into exactly when the test holds. -/
theorem c9_overlap_characterisation :
    (∀ qc qs qe sc sb ec eb : Nat,
      cirTreeOverlaps qc qs qe sc sb ec eb = true ↔ (pairLt qc qs ec eb ∧ pairLt sc sb qc qe))
    ∧ (∀ (qc qs qe : Nat) (cs : List (CirInterval × Nat × Nat)) (res : List FileOffsetSize),
        cirFind (.leaf cs) qc qs qe res
          = res ++ (cs.filter (fun c =>
              cirTreeOverlaps qc qs qe c.1.startChromIx c.1.startBase c.1.endChromIx c.1.endBase)).map
              (fun c => ⟨c.2.1, c.2.2⟩))
    ∧ (∀ (qc qs qe : Nat) (cs : List (CirInterval × CirNode)) (res : List FileOffsetSize),
        cirFind (.node cs) qc qs qe res
          = (cs.filter (fun c =>
              cirTreeOverlaps qc qs qe c.1.startChromIx c.1.startBase c.1.endChromIx c.1.endBase)).foldl
              (fun r c => cirFind c.2 qc qs qe r) res) := by
  refine ⟨?_, ?_, ?_⟩
  · intro qc qs qe sc sb ec eb
    unfold cirTreeOverlaps cmpTwo pairLt
    split_ifs <;> simp <;> omega
  · intro qc qs qe cs res
    rw [cirFind]
    exact cirLeafLoop_eq qc qs qe cs res
  · intro qc qs qe cs res
    rw [cirFind]
    exact cirNodeLoop_eq qc qs qe cs res

/-! ## C10: bounded output and completeness of the pipeline -/

/-- With `max_items = 0` the record loop is decode-then-filter: it equals
`decodeRecords` followed by filtering, with the item count advanced by
the number of matches and the matching records appended. -/
theorem decodeLoop_zero (sw : Bool) (cid qs qe : Nat) (buff : ByteStr) (blockEnd : Nat)
    (fuel : Nat) : ∀ (blockPt c : Nat) (l : List BedLine),
    decodeLoop sw cid qs qe 0 buff blockEnd fuel blockPt c l
      = match decodeRecords sw buff blockEnd fuel blockPt with
        | .error e => .error e
        | .ok (recs, pt') =>
          .ok (pt', c + (recs.filter (recMatches cid qs qe)).length,
               l ++ (recs.filter (recMatches cid qs qe)).map mkBedLine) := by
  induction fuel with
  | zero => intro blockPt c l; rfl
  | succ fuel ih =>
    intro blockPt c l
    by_cases hlt : blockPt < blockEnd
    · rw [decodeLoop, decodeRecords, if_pos hlt, if_pos hlt]
      cases hrh : readRecHead sw buff blockPt with
      | error e => rfl
      | ok tr =>
        obtain ⟨chr, s, e_⟩ := tr
        dsimp only
        by_cases hm : bedFilterPred cid qs qe chr s e_
        · rw [if_pos hm, if_neg (by omega : ¬((0 : Nat) > 0 ∧ c + 1 > 0)), ih]
          cases hdr : decodeRecords sw buff blockEnd fuel
              (blockPt + 12 + (strlen (buff.drop (blockPt + 12)) + 2).toNat) with
          | error e => rfl
          | ok p =>
            obtain ⟨recs, pt'⟩ := p
            have hm' : recMatches cid qs qe (chr, s, e_) = true := hm
            simp [List.filter_cons, hm', mkBedLine]
            omega
        · rw [if_neg hm, ih]
          cases hdr : decodeRecords sw buff blockEnd fuel
              (blockPt + 12 + (strlen (buff.drop (blockPt + 12)) + 2).toNat) with
          | error e => rfl
          | ok p =>
            obtain ⟨recs, pt'⟩ := p
            have hm' : recMatches cid qs qe (chr, s, e_) = false := by
              simp only [recMatches]
              exact Bool.eq_false_iff.mpr (fun hh => hm hh)
            simp [List.filter_cons, hm']
    · rw [decodeLoop, decodeRecords, if_neg hlt, if_neg hlt]
      simp

/-- With `max_items = 0` the per-run loop equals the decode-then-filter
rendering, with matched records appended and counted. -/
theorem runLoop_zero (sw : Bool) (ucbs : Nat) (zdec : ByteStr → Option ByteStr)
    (cid qs qe : Nat) (mergedBuf : ByteStr) (fuel : Nat) :
    ∀ (rb : List FileOffsetSize) (blockPt c : Nat) (l : List BedLine),
    runLoop sw ucbs zdec cid qs qe 0 mergedBuf fuel rb blockPt c l
      = match runMatching sw ucbs zdec cid qs qe mergedBuf fuel rb blockPt with
        | .error e => .error e
        | .ok (lines, pt') => .ok (pt', c + lines.length, l ++ lines) := by
  intro rb
  induction rb with
  | nil => intro blockPt c l; simp [runLoop, runMatching]
  | cons b rest ih =>
    intro blockPt c l
    rw [runLoop, runMatching]
    cases hb : blockBuffer ucbs zdec mergedBuf blockPt b with
    | error e => rfl
    | ok p =>
      obtain ⟨buff, blockEnd⟩ := p
      dsimp only
      rw [decodeLoop_zero]
      cases hdr : decodeRecords sw buff blockEnd fuel blockPt with
      | error e => rfl
      | ok q =>
        obtain ⟨recs, pt'⟩ := q
        dsimp only
        have hcap : ¬((0 : Nat) > 0 ∧ c + (recs.filter (recMatches cid qs qe)).length > 0) := by
          omega
        rw [if_neg hcap, ih]
        cases hrm : runMatching sw ucbs zdec cid qs qe mergedBuf fuel rest pt' with
        | error e => rfl
        | ok r =>
          obtain ⟨lines, ptF⟩ := r
          simp [List.append_assoc]
          omega

/-- With `max_items = 0` the whole block pipeline equals the
decode-then-filter rendering `queryMatching`, appended to the incoming
`intervals`. -/
theorem queryBlocksLoop_zero (file : ByteStr) (sw : Bool) (ucbs : Nat)
    (zdec : ByteStr → Option ByteStr) (cid qs qe fuel : Nat) :
    ∀ (ofuel : Nat) (blocks : List FileOffsetSize) (c : Nat) (l : List BedLine),
    queryBlocksLoop file sw ucbs zdec cid qs qe 0 fuel ofuel blocks c l
      = match queryMatching file sw ucbs zdec cid qs qe fuel ofuel blocks with
        | .error e => .error e
        | .ok lines => .ok (l ++ lines) := by
  intro ofuel
  induction ofuel with
  | zero => intro blocks c l; rfl
  | succ ofuel ih =>
    intro blocks c l
    cases blocks with
    | nil => simp [queryBlocksLoop, queryMatching]
    | cons b bs =>
      rw [queryBlocksLoop, queryMatching]
      cases hrs : runSetup file b bs with
      | error e => rfl
      | ok p =>
        obtain ⟨mergedBuf, afterGap⟩ := p
        dsimp only
        rw [runLoop_zero]
        cases hrm : runMatching sw ucbs zdec cid qs qe mergedBuf fuel ((b :: bs).take afterGap) 0 with
        | error e => rfl
        | ok q =>
          obtain ⟨lines, pt⟩ := q
          dsimp only
          have hcap : ¬((0 : Nat) > 0 ∧ c + lines.length > 0) := by omega
          rw [if_neg hcap, ih]
          cases hqm : queryMatching file sw ucbs zdec cid qs qe fuel ofuel ((b :: bs).drop afterGap) with
          | error e => rfl
          | ok more =>
            simp [List.append_assoc]

/-- Cap invariant of the record loop: a successful run from item count
`c` never decreases the count, and appends exactly
`min (c' - c) (m - c)` records — each match increments the count, and a
record is appended only while the count stays within the cap `m`. -/
theorem decodeLoop_bound (sw : Bool) (cid qs qe m : Nat) (hm : 0 < m)
    (buff : ByteStr) (blockEnd : Nat) :
    ∀ (fuel blockPt c : Nat) (l : List BedLine) (pt' c' : Nat) (l' : List BedLine),
    decodeLoop sw cid qs qe m buff blockEnd fuel blockPt c l = .ok (pt', c', l') →
    c ≤ c' ∧ l'.length = l.length + min (c' - c) (m - c) := by
  intro fuel
  induction fuel with
  | zero =>
    intro blockPt c l pt' c' l' h
    exact absurd h (by simp [decodeLoop])
  | succ fuel ih =>
    intro blockPt c l pt' c' l' h
    rw [decodeLoop] at h
    by_cases hlt : blockPt < blockEnd
    · rw [if_pos hlt] at h
      cases hrh : readRecHead sw buff blockPt with
      | error e => rw [hrh] at h; exact absurd h (by simp)
      | ok tr =>
        obtain ⟨chr, s, e_⟩ := tr
        rw [hrh] at h
        dsimp only at h
        by_cases hmt : bedFilterPred cid qs qe chr s e_
        · rw [if_pos hmt] at h
          by_cases hcap : m > 0 ∧ c + 1 > m
          · rw [if_pos hcap] at h
            simp only [Except.ok.injEq, Prod.mk.injEq] at h
            obtain ⟨_, h2, h3⟩ := h
            subst h2; subst h3
            constructor
            · omega
            · omega
          · rw [if_neg hcap] at h
            have hrec := ih _ _ _ _ _ _ h
            simp only [List.length_append, List.length_cons, List.length_nil] at hrec
            omega
        · rw [if_neg hmt] at h
          exact ih _ _ _ _ _ _ h
    · rw [if_neg hlt] at h
      simp only [Except.ok.injEq, Prod.mk.injEq] at h
      obtain ⟨_, h2, h3⟩ := h
      subst h2; subst h3
      omega

/-- Cap invariant of the per-run loop. -/
theorem runLoop_bound (sw : Bool) (ucbs : Nat) (zdec : ByteStr → Option ByteStr)
    (cid qs qe m : Nat) (hm : 0 < m) (mergedBuf : ByteStr) (fuel : Nat) :
    ∀ (rb : List FileOffsetSize) (blockPt c : Nat) (l : List BedLine)
      (pt' c' : Nat) (l' : List BedLine),
    runLoop sw ucbs zdec cid qs qe m mergedBuf fuel rb blockPt c l = .ok (pt', c', l') →
    c ≤ c' ∧ l'.length = l.length + min (c' - c) (m - c) := by
  intro rb
  induction rb with
  | nil =>
    intro blockPt c l pt' c' l' h
    rw [runLoop] at h
    simp only [Except.ok.injEq, Prod.mk.injEq] at h
    obtain ⟨_, h2, h3⟩ := h
    subst h2; subst h3
    omega
  | cons b rest ih =>
    intro blockPt c l pt' c' l' h
    rw [runLoop] at h
    cases hb : blockBuffer ucbs zdec mergedBuf blockPt b with
    | error e => rw [hb] at h; exact absurd h (by simp)
    | ok p =>
      obtain ⟨buff, blockEnd⟩ := p
      rw [hb] at h
      dsimp only at h
      cases hd : decodeLoop sw cid qs qe m buff blockEnd fuel blockPt c l with
      | error e => rw [hd] at h; exact absurd h (by simp)
      | ok q =>
        obtain ⟨pt1, c1, l1⟩ := q
        rw [hd] at h
        dsimp only at h
        have h1 := decodeLoop_bound sw cid qs qe m hm buff blockEnd fuel blockPt c l pt1 c1 l1 hd
        by_cases hcap : m > 0 ∧ c1 > m
        · rw [if_pos hcap] at h
          simp only [Except.ok.injEq, Prod.mk.injEq] at h
          obtain ⟨_, h2, h3⟩ := h
          subst h2; subst h3
          omega
        · rw [if_neg hcap] at h
          have h2 := ih _ _ _ _ _ _ h
          omega

/-- Cap invariant of the whole pipeline: a successful run from item
count `c` returns at most `min (c' - c) (m - c)` new records for some
final count `c' ≥ c`. -/
theorem queryBlocksLoop_bound (file : ByteStr) (sw : Bool) (ucbs : Nat)
    (zdec : ByteStr → Option ByteStr) (cid qs qe m : Nat) (hm : 0 < m) (fuel : Nat) :
    ∀ (ofuel : Nat) (blocks : List FileOffsetSize) (c : Nat) (l l'' : List BedLine),
    queryBlocksLoop file sw ucbs zdec cid qs qe m fuel ofuel blocks c l = .ok l'' →
    ∃ c', c ≤ c' ∧ l''.length = l.length + min (c' - c) (m - c) := by
  intro ofuel
  induction ofuel with
  | zero =>
    intro blocks c l l'' h
    exact absurd h (by simp [queryBlocksLoop])
  | succ ofuel ih =>
    intro blocks c l l'' h
    cases blocks with
    | nil =>
      rw [queryBlocksLoop] at h
      simp only [Except.ok.injEq] at h
      subst h
      exact ⟨c, le_refl c, by omega⟩
    | cons b bs =>
      rw [queryBlocksLoop] at h
      cases hrs : runSetup file b bs with
      | error e => rw [hrs] at h; exact absurd h (by simp)
      | ok p =>
        obtain ⟨mergedBuf, afterGap⟩ := p
        rw [hrs] at h
        dsimp only at h
        cases hr : runLoop sw ucbs zdec cid qs qe m mergedBuf fuel ((b :: bs).take afterGap) 0 c l with
        | error e => rw [hr] at h; exact absurd h (by simp)
        | ok q =>
          obtain ⟨pt1, c1, l1⟩ := q
          rw [hr] at h
          dsimp only at h
          have h1 := runLoop_bound sw ucbs zdec cid qs qe m hm mergedBuf fuel _ _ _ _ _ _ _ hr
          by_cases hcap : m > 0 ∧ c1 > m
          · rw [if_pos hcap] at h
            simp only [Except.ok.injEq] at h
            subst h
            exact ⟨c1, by omega, by omega⟩
          · rw [if_neg hcap] at h
            obtain ⟨c2, hc2, hl2⟩ := ih _ _ _ _ h
            exact ⟨c2, by omega, by omega⟩

/-- C10.  (1) For `N > 0`, a successful `query` returns at most `N`
records: the pipeline starts with `itemCount = 0` and the cap invariant
bounds the appended records by `N`.  (2) For `N = 0` (unlimited) the
pipeline returns exactly the decode-then-filter result over the blocks
returned by the CIR-tree search: every decoded record that passes the
chromosome-and-interval filter, in order. -/
theorem c10_bounded_output (bpt : Bpt) (cir : CirNode) (file : ByteStr) (sw : Bool)
    (ucbs : Nat) (zdec : ByteStr → Option ByteStr) (chrom : ByteStr)
    (cid qstart qend fuel ofuel : Nat) (blocks : List FileOffsetSize) (N : Nat) :
    (0 < N → ∀ l, bigBedQuery bpt cir file sw ucbs zdec chrom qstart qend N fuel ofuel = .ok l →
      l.length ≤ N)
    ∧ (N = 0 → queryBlocksLoop file sw ucbs zdec cid qstart qend 0 fuel ofuel blocks 0 []
        = queryMatching file sw ucbs zdec cid qstart qend fuel ofuel blocks) := by
  constructor
  · intro hN l h
    rw [bigBedQuery] at h
    cases hob : overlappingBlocks bpt cir fuel chrom
        (if qstart > 0 then qstart - 1 else qstart) (qend + 1) with
    | error e => rw [hob] at h; exact absurd h (by simp)
    | ok o =>
      cases o with
      | none => rw [hob] at h; exact absurd h (by simp)
      | some p =>
        obtain ⟨blocks', cid'⟩ := p
        rw [hob] at h
        dsimp only at h
        obtain ⟨c', _, hl⟩ :=
          queryBlocksLoop_bound file sw ucbs zdec cid' qstart qend N hN fuel ofuel blocks' 0 [] l h
        simp only [List.length_nil] at hl
        omega
  · intro h0
    subst h0
    rw [queryBlocksLoop_zero]
    cases hqm : queryMatching file sw ucbs zdec cid qstart qend fuel ofuel blocks with
    | error e => rfl
    | ok lines => simp

/-- An end-to-end concrete container for the C10 witness: bytes 0-13 are
a single-leaf chromosome B+ tree mapping `[65, 66]` ("AB") to
`(chromId, chromSize) = (1, 50)`; bytes 14-26 are one data block holding
the single record `chr = 1, s = 5, e = 9` with an empty tail. -/
def fileW : ByteStr :=
  [1, 0, 0, 1, 65, 66, 0, 0, 0, 1, 0, 0, 0, 50,
   0, 0, 0, 1, 0, 0, 0, 5, 0, 0, 0, 9, 0]

/-- The B+ tree view of `fileW`. -/
def bptW : Bpt := ⟨fileW, false, 2, 8, 1, 0⟩

/-- The CIR tree of the witness container: one leaf block covering
chromosome 1 bases 0-100, pointing at the data block at offset 14. -/
def cirW : CirNode := .leaf [(⟨1, 0, 1, 100⟩, 14, 13)]

/-- Witness for `c10_bounded_output` at the concrete container: the query
with cap `N = 1` succeeds with exactly one record, and the theorem bounds
its length by 1. -/
theorem c10_bounded_output_witness :
    bigBedQuery bptW cirW fileW false 0 (fun _ => none) [65, 66] 0 10 1 9 9
      = .ok [⟨5, 9, none, 1⟩]
    ∧ ([(⟨5, 9, none, 1⟩ : BedLine)]).length ≤ 1 :=
  ⟨rfl,
   (c10_bounded_output bptW cirW fileW false 0 (fun _ => none) [65, 66] 1 0 10 9 9 [] 1).1
     (by decide) [⟨5, 9, none, 1⟩] rfl⟩
